import Mathlib

/-!
Verification of the path-extraction core of `graphql-field-mask`
(`src/fieldMaskPathsFromResolveInfo.ts`).

The development shallowly embeds the extractor: the GraphQL selection AST,
the fragment table and the schema become inductive data, and the recursive
walker `extractFieldsFromGraphqlAst` becomes a fuel-indexed total function
into `Except Err (List String)`.  Fuel is an embedding artifact: the
TypeScript walker recurses through the fragment table without any cycle
guard, so it is partial on cyclic fragment tables; `Err.outOfFuel`
represents that divergence.  Every other error constructor corresponds to
one `throw new Error(...)` in the source.
-/

/-- A schema field definition.  `name` is `field.name`; `typeName` is the
name of `getNamedType(field.type)`, i.e. the field's declared type with all
list/non-null wrappers removed (the only piece of the field's type the
extractor consults). -/
structure GraphQLField where
  name : String
  typeName : String

/-- A `GraphQLObjectType`: a named type with a field map.  The field map is
represented as the list of field definitions; `type.getFields()[n]` becomes
a lookup of the field whose `name` is `n` (in graphql-js the key of the
field map is always the field's own `name`). -/
structure GraphQLObjectType where
  name : String
  fields : List GraphQLField

/-- A named schema type as the extractor distinguishes them: a concrete
object type, an abstract (union or interface) type, or any other named type
(scalar, enum, input). -/
inductive GraphQLNamedType where
  | object (type : GraphQLObjectType)
  | abstract (name : String)
  | scalar (name : String)

/-- The name of a named type. -/
def GraphQLNamedType.name : GraphQLNamedType → String
  | .object o => o.name
  | .abstract n => n
  | .scalar n => n

/-- `isAbstractType` from graphql-js: true exactly for union/interface. -/
def GraphQLNamedType.isAbstract : GraphQLNamedType → Bool
  | .abstract _ => true
  | _ => false

/-- A `GraphQLSchema` is its type map: the list of named types. -/
abbrev GraphQLSchema := List GraphQLNamedType

/-- `schema.getType(name)`. -/
def getTypeFromSchema (name : String) (schema : GraphQLSchema) : Option GraphQLNamedType :=
  schema.find? (fun t => t.name == name)

/-- A selection node of the query AST: a field (with name, optional alias
and optional sub-selection set), a fragment spread, or an inline fragment
(optional type condition, mandatory selection set). -/
inductive SelectionNode where
  | field (name : String) (aliasName : Option String) (selectionSet : Option (List SelectionNode))
  | fragmentSpread (name : String)
  | inlineFragment (typeCondition : Option String) (selectionSet : List SelectionNode)

/-- A fragment definition: `fragment F on T { ... }` keeps its type
condition `T` and its selection set. -/
structure FragmentDefinitionNode where
  typeCondition : String
  selectionSet : List SelectionNode

/-- `info.fragments`: the name-to-definition fragment table. -/
abbrev FragmentMap := List (String × FragmentDefinitionNode)

/-- The error taxonomy of the extractor.  Each constructor models one
`throw new Error(...)` site, except `outOfFuel`, which models divergence of
the unguarded recursion (cyclic fragments), and `insufficientContext`,
which models the internal-consistency failure of the spec's abstract-type
hook path. -/
inductive Err where
  | unknownType (name : String)
  | notObjectType (name : String)
  | unknownField (typename fieldName : String)
  | unknownFragment (name : String)
  | insufficientContext
  | outOfFuel
deriving DecidableEq

/-- `GetFieldNameFunc` from the source: receives the field definition, the
enclosing object type and the schema, and returns the mask name for the
field or `null` to suppress it. -/
def GetFieldNameFunc := GraphQLField → GraphQLObjectType → GraphQLSchema → Option String

/-- The options bundle of `fieldMaskPathsFromResolveInfo`. -/
structure FieldMaskPathsFromResolveInfoOptions where
  getFieldName : Option GetFieldNameFunc

/-- `getObjectType` from the source: resolves `name` in the schema, failing
with `UnknownType` when absent and `NotAnObjectType` when the resolved type
is not an object type. -/
def getObjectType (name : String) (schema : GraphQLSchema) : Except Err GraphQLObjectType :=
  match getTypeFromSchema name schema with
  | none => .error (.unknownType name)
  | some (.object o) => .ok o
  | some _ => .error (.notObjectType name)

/-- `type.getFields()[name]`: the field of `type` named `name`. -/
def findField (type : GraphQLObjectType) (name : String) : Option GraphQLField :=
  type.fields.find? (fun f => f.name == name)

/-- The type of the recursive walker, abstracted over so that one level of
the walker can be stated against an arbitrary continuation `rec` for the
nested walks. -/
abbrev Walker :=
  String → Option (List SelectionNode) → FragmentMap → GraphQLSchema →
    FieldMaskPathsFromResolveInfoOptions → Except Err (List String)

/-- One arm of the `switch (selection.kind)` of
`extractFieldsFromGraphqlAst` in the source: the paths contributed by a
single selection, where `rec` performs the nested walks (into a field's
sub-selection set, a named fragment's body, or an inline fragment's body). -/
def extractSelection (rec : Walker) (typename : String) (selection : SelectionNode)
    (fragments : FragmentMap) (schema : GraphQLSchema)
    (opts : FieldMaskPathsFromResolveInfoOptions) : Except Err (List String) :=
  match selection with
  | .field name _aliasName selectionSet =>
    if name == "__typename" then .ok []
    else
      match getObjectType typename schema with
      | .error e => .error e
      | .ok type =>
        match findField type name with
        | none => .error (.unknownField typename name)
        | some fld =>
          let fieldName? : Option String :=
            match opts.getFieldName with
            | some getFieldName => getFieldName fld type schema
            | none => some fld.name
          match fieldName? with
          | none => .ok []
          | some fieldName =>
            match selectionSet with
            | some _ =>
              match rec fld.typeName selectionSet fragments schema opts with
              | .error e => .error e
              | .ok childFields => .ok (childFields.map (fun f => fieldName ++ "." ++ f))
            | none => .ok [fieldName]
  | .fragmentSpread fragmentName =>
    match List.lookup fragmentName fragments with
    | none => .error (.unknownFragment fragmentName)
    | some fragment => rec fragment.typeCondition (some fragment.selectionSet) fragments schema opts
  | .inlineFragment typeCondition selections =>
    rec (typeCondition.getD typename) (some selections) fragments schema opts

/-- The `for (const selection of node.selectionSet.selections)` loop of the
source: contributions of the selections, concatenated left to right; an
error aborts the whole walk. -/
def extractSelections (rec : Walker) (typename : String) (selections : List SelectionNode)
    (fragments : FragmentMap) (schema : GraphQLSchema)
    (opts : FieldMaskPathsFromResolveInfoOptions) : Except Err (List String) :=
  match selections with
  | [] => .ok []
  | s :: rest =>
    match extractSelection rec typename s fragments schema opts with
    | .error e => .error e
    | .ok ps =>
      match extractSelections rec typename rest fragments schema opts with
      | .error e => .error e
      | .ok qs => .ok (ps ++ qs)

/-- `extractFieldsFromGraphqlAst` from the source, fuel-indexed.  A node
without a selection set contributes no paths; otherwise its selections are
processed by `extractSelections` with the walker one fuel level down as the
continuation for nested walks. -/
def extractFieldsFromGraphqlAst : Nat → Walker
  | 0 => fun _ selectionSet _ _ _ =>
    match selectionSet with
    | none => .ok []
    | some _ => .error .outOfFuel
  | fuel + 1 => fun typename selectionSet fragments schema opts =>
    match selectionSet with
    | none => .ok []
    | some sels => extractSelections (extractFieldsFromGraphqlAst fuel) typename sels fragments schema opts

/-- The insertion-ordered-set update `pathSet.add(path)` of the source: a
path already present is dropped, a new path is appended. -/
def insertPath (pathSet : List String) (path : String) : List String :=
  if pathSet.contains path then pathSet else pathSet ++ [path]

/-- The node loop of `fieldMaskPaths`: walk each node and fold its paths
into the accumulated insertion-ordered set. -/
def fieldMaskPathsGo (fuel : Nat) (typename : String) (nodes : List (Option (List SelectionNode)))
    (fragments : FragmentMap) (schema : GraphQLSchema)
    (opts : FieldMaskPathsFromResolveInfoOptions) (pathSet : List String) :
    Except Err (List String) :=
  match nodes with
  | [] => .ok pathSet
  | n :: rest =>
    match extractFieldsFromGraphqlAst fuel typename n fragments schema opts with
    | .error e => .error e
    | .ok paths => fieldMaskPathsGo fuel typename rest fragments schema opts (paths.foldl insertPath pathSet)

/-- `fieldMaskPaths` from the source: union of the walker's results over
the given field nodes (each node represented by its selection set), as an
insertion-ordered duplicate-free list. -/
def fieldMaskPaths (fuel : Nat) (typename : String) (nodes : List (Option (List SelectionNode)))
    (fragments : FragmentMap) (schema : GraphQLSchema)
    (opts : FieldMaskPathsFromResolveInfoOptions) : Except Err (List String) :=
  fieldMaskPathsGo fuel typename nodes fragments schema opts []

/-- The relevant projection of `GraphQLResolveInfo`: the AST nodes of the
resolved field, the fragment table and the schema. -/
structure GraphQLResolveInfo where
  fieldNodes : List (Option (List SelectionNode))
  fragments : FragmentMap
  schema : GraphQLSchema

/-- `fieldMaskPathsFromResolveInfo` from the source: unpacks the resolve
info and delegates to `fieldMaskPaths`. -/
def fieldMaskPathsFromResolveInfo (fuel : Nat) (typename : String) (info : GraphQLResolveInfo)
    (opts : FieldMaskPathsFromResolveInfoOptions) : Except Err (List String) :=
  fieldMaskPaths fuel typename info.fieldNodes info.fragments info.schema opts

/-! ### First-occurrence deduplication -/

/-- First-occurrence deduplication of a list of strings: keep each string
at the position of its first appearance and drop every later duplicate.
This is the specification-side description of the insertion-ordered `Set`
used by `fieldMaskPaths`. -/
def dedupFirstOcc : List String → List String
  | [] => []
  | p :: rest => p :: dedupFirstOcc (rest.filter (fun q => q != p))
termination_by l => l.length
decreasing_by
  simp only [List.length_cons]
  exact Nat.lt_succ_of_le (List.length_filter_le _ _)

theorem dedupFirstOcc_nil : dedupFirstOcc [] = [] := by
  rw [dedupFirstOcc]

theorem dedupFirstOcc_cons (p : String) (rest : List String) :
    dedupFirstOcc (p :: rest) = p :: dedupFirstOcc (rest.filter (fun q => q != p)) := by
  rw [dedupFirstOcc]

theorem mem_of_mem_dedupFirstOcc (l : List String) (p : String)
    (h : p ∈ dedupFirstOcc l) : p ∈ l := by
  match l with
  | [] => rw [dedupFirstOcc_nil] at h; exact absurd h (List.not_mem_nil p)
  | x :: rest =>
    rw [dedupFirstOcc_cons] at h
    rcases List.mem_cons.mp h with h | h
    · exact h ▸ List.mem_cons_self _ _
    · exact List.mem_cons_of_mem _
        (List.mem_of_mem_filter (mem_of_mem_dedupFirstOcc _ p h))
termination_by l.length
decreasing_by
  simp only [List.length_cons]
  exact Nat.lt_succ_of_le (List.length_filter_le _ _)

theorem dedupFirstOcc_nodup (l : List String) : (dedupFirstOcc l).Nodup := by
  match l with
  | [] => rw [dedupFirstOcc_nil]; exact List.nodup_nil
  | x :: rest =>
    rw [dedupFirstOcc_cons]
    refine List.nodup_cons.mpr ⟨?_, dedupFirstOcc_nodup _⟩
    intro hx
    have hmem := mem_of_mem_dedupFirstOcc _ _ hx
    have hq := List.of_mem_filter hmem
    simp at hq
termination_by l.length
decreasing_by
  simp only [List.length_cons]
  exact Nat.lt_succ_of_le (List.length_filter_le _ _)

theorem foldl_insertPath (l : List String) :
    ∀ acc : List String,
      l.foldl insertPath acc = acc ++ dedupFirstOcc (l.filter (fun p => !acc.contains p)) := by
  induction l with
  | nil => intro acc; simp [dedupFirstOcc_nil]
  | cons x rest ih =>
    intro acc
    by_cases hx : x ∈ acc
    · have hc : (acc.contains x) = true := by
        simp [hx]
      simp only [List.foldl_cons, insertPath, hc, if_pos]
      rw [ih acc]
      have hdrop : (x :: rest).filter (fun p => !acc.contains p)
          = rest.filter (fun p => !acc.contains p) := by
        rw [List.filter_cons_of_neg]
        simp [hx]
      rw [hdrop]
    · have hc : (acc.contains x) = false := by
        simp [hx]
      simp only [List.foldl_cons, insertPath, hc]
      rw [if_neg (by simp [hx])]
      rw [ih (acc ++ [x])]
      have hkeep : (x :: rest).filter (fun p => !acc.contains p)
          = x :: rest.filter (fun p => !acc.contains p) := by
        rw [List.filter_cons_of_pos]
        simp [hx]
      rw [hkeep, dedupFirstOcc_cons, List.filter_filter]
      have hpt : (rest.filter (fun p => !(acc ++ [x]).contains p))
          = rest.filter (fun a => (a != x && !acc.contains a)) := by
        refine List.filter_congr ?_
        intro a _
        by_cases hax : a = x
        · subst hax; simp
        · by_cases ha : a ∈ acc <;> simp [ha, hax]
      rw [hpt]
      simp [List.append_assoc]

theorem foldl_insertPath_nil (l : List String) :
    l.foldl insertPath [] = dedupFirstOcc l := by
  rw [foldl_insertPath l []]
  simp

/-! ### Characterization of the root entry -/

/-- The per-node results of the walker, in node order (the list that the
Root Entry unions). -/
def walkNodes (fuel : Nat) (typename : String) (nodes : List (Option (List SelectionNode)))
    (fragments : FragmentMap) (schema : GraphQLSchema)
    (opts : FieldMaskPathsFromResolveInfoOptions) : Except Err (List (List String)) :=
  match nodes with
  | [] => .ok []
  | n :: rest =>
    match extractFieldsFromGraphqlAst fuel typename n fragments schema opts with
    | .error e => .error e
    | .ok ps =>
      match walkNodes fuel typename rest fragments schema opts with
      | .error e => .error e
      | .ok rss => .ok (ps :: rss)

theorem fieldMaskPathsGo_eq (fuel : Nat) (typename : String)
    (nodes : List (Option (List SelectionNode))) (fragments : FragmentMap)
    (schema : GraphQLSchema) (opts : FieldMaskPathsFromResolveInfoOptions) :
    ∀ acc : List String,
      fieldMaskPathsGo fuel typename nodes fragments schema opts acc =
        match walkNodes fuel typename nodes fragments schema opts with
        | .error e => .error e
        | .ok rss => .ok (rss.flatten.foldl insertPath acc) := by
  induction nodes with
  | nil => intro acc; simp [fieldMaskPathsGo, walkNodes]
  | cons n rest ih =>
    intro acc
    cases hext : extractFieldsFromGraphqlAst fuel typename n fragments schema opts with
    | error e => simp [fieldMaskPathsGo, walkNodes, hext]
    | ok ps =>
      simp only [fieldMaskPathsGo, walkNodes, hext]
      rw [ih (ps.foldl insertPath acc)]
      cases hw : walkNodes fuel typename rest fragments schema opts with
      | error e => rfl
      | ok rss => simp [List.flatten_cons, List.foldl_append]

theorem fieldMaskPaths_eq_dedup (fuel : Nat) (typename : String)
    (nodes : List (Option (List SelectionNode))) (fragments : FragmentMap)
    (schema : GraphQLSchema) (opts : FieldMaskPathsFromResolveInfoOptions) :
    fieldMaskPaths fuel typename nodes fragments schema opts =
      match walkNodes fuel typename nodes fragments schema opts with
      | .error e => .error e
      | .ok rss => .ok (dedupFirstOcc rss.flatten) := by
  rw [fieldMaskPaths, fieldMaskPathsGo_eq]
  cases hw : walkNodes fuel typename nodes fragments schema opts with
  | error e => rfl
  | ok rss => simp only [foldl_insertPath_nil]

/-! ### Splitting a selection list -/

theorem extractSelections_append (rec : Walker) (typename : String)
    (l₁ l₂ : List SelectionNode) (fragments : FragmentMap) (schema : GraphQLSchema)
    (opts : FieldMaskPathsFromResolveInfoOptions) :
    extractSelections rec typename (l₁ ++ l₂) fragments schema opts =
      match extractSelections rec typename l₁ fragments schema opts with
      | .error e => .error e
      | .ok a =>
        match extractSelections rec typename l₂ fragments schema opts with
        | .error e => .error e
        | .ok b => .ok (a ++ b) := by
  induction l₁ with
  | nil =>
    simp only [List.nil_append, extractSelections]
    cases extractSelections rec typename l₂ fragments schema opts with
    | error e => rfl
    | ok b => simp
  | cons s rest ih =>
    simp only [List.cons_append, extractSelections, List.append_eq]
    rw [ih]
    cases extractSelection rec typename s fragments schema opts with
    | error e => rfl
    | ok ps =>
      cases extractSelections rec typename rest fragments schema opts with
      | error e => rfl
      | ok a =>
        cases extractSelections rec typename l₂ fragments schema opts with
        | error e => rfl
        | ok b => simp

/-! ### Fuel monotonicity -/

theorem extractSelection_mono_rec {rec rec' : Walker} {fragments : FragmentMap}
    {schema : GraphQLSchema} {opts : FieldMaskPathsFromResolveInfoOptions}
    (hrec : ∀ t ss r, rec t ss fragments schema opts = .ok r →
      rec' t ss fragments schema opts = .ok r)
    (typename : String) (s : SelectionNode) (r : List String)
    (h : extractSelection rec typename s fragments schema opts = .ok r) :
    extractSelection rec' typename s fragments schema opts = .ok r := by
  cases s with
  | field n a ss =>
    by_cases hn : (n == "__typename") = true
    · simpa [extractSelection, hn] using h
    · simp only [extractSelection, hn, Bool.false_eq_true, if_false] at h ⊢
      cases hobj : getObjectType typename schema with
      | error e => rw [hobj] at h; simp at h
      | ok ty =>
        rw [hobj] at h
        dsimp only at h ⊢
        cases hf : findField ty n with
        | none => rw [hf] at h; simp at h
        | some fld =>
          rw [hf] at h
          dsimp only at h ⊢
          cases hname : (match opts.getFieldName with
            | some getFieldName => getFieldName fld ty schema
            | none => some fld.name) with
          | none =>
            rw [hname] at h
            dsimp only at h ⊢
            exact h
          | some fieldName =>
            rw [hname] at h
            dsimp only at h ⊢
            cases ss with
            | none => exact h
            | some sels =>
              dsimp only at h ⊢
              cases hr : rec fld.typeName (some sels) fragments schema opts with
              | error e => rw [hr] at h; simp at h
              | ok cs =>
                rw [hr] at h
                dsimp only at h
                rw [hrec _ _ _ hr]
                dsimp only
                exact h
  | fragmentSpread fname =>
    simp only [extractSelection] at h ⊢
    cases hl : List.lookup fname fragments with
    | none => rw [hl] at h; simp at h
    | some frag =>
      rw [hl] at h
      dsimp only at h ⊢
      exact hrec _ _ _ h
  | inlineFragment cond sels =>
    simp only [extractSelection] at h ⊢
    exact hrec _ _ _ h

theorem extractSelections_mono_rec {rec rec' : Walker} {fragments : FragmentMap}
    {schema : GraphQLSchema} {opts : FieldMaskPathsFromResolveInfoOptions}
    (hrec : ∀ t ss r, rec t ss fragments schema opts = .ok r →
      rec' t ss fragments schema opts = .ok r)
    (typename : String) (sels : List SelectionNode) (r : List String)
    (h : extractSelections rec typename sels fragments schema opts = .ok r) :
    extractSelections rec' typename sels fragments schema opts = .ok r := by
  induction sels generalizing r with
  | nil => simpa [extractSelections] using h
  | cons s rest ih =>
    simp only [extractSelections] at h ⊢
    cases hs : extractSelection rec typename s fragments schema opts with
    | error e => rw [hs] at h; simp at h
    | ok ps =>
      rw [hs] at h
      dsimp only at h
      rw [extractSelection_mono_rec hrec typename s ps hs]
      dsimp only
      cases hrest : extractSelections rec typename rest fragments schema opts with
      | error e => rw [hrest] at h; simp at h
      | ok qs =>
        rw [hrest] at h
        dsimp only at h
        rw [ih qs hrest]
        exact h

theorem extract_mono {fragments : FragmentMap} {schema : GraphQLSchema}
    {opts : FieldMaskPathsFromResolveInfoOptions} :
    ∀ (fuel : Nat) (typename : String) (ss : Option (List SelectionNode)) (r : List String),
      extractFieldsFromGraphqlAst fuel typename ss fragments schema opts = .ok r →
      extractFieldsFromGraphqlAst (fuel + 1) typename ss fragments schema opts = .ok r := by
  intro fuel
  induction fuel with
  | zero =>
    intro typename ss r h
    cases ss with
    | none => exact h
    | some sels => exact absurd h (by simp [extractFieldsFromGraphqlAst])
  | succ fuel ih =>
    intro typename ss r h
    cases ss with
    | none => exact h
    | some sels =>
      simp only [extractFieldsFromGraphqlAst] at h ⊢
      exact extractSelections_mono_rec ih typename sels r h

theorem extract_mono_le {fragments : FragmentMap} {schema : GraphQLSchema}
    {opts : FieldMaskPathsFromResolveInfoOptions} {fuel fuel' : Nat}
    (hle : fuel ≤ fuel') (typename : String) (ss : Option (List SelectionNode))
    (r : List String)
    (h : extractFieldsFromGraphqlAst fuel typename ss fragments schema opts = .ok r) :
    extractFieldsFromGraphqlAst fuel' typename ss fragments schema opts = .ok r := by
  induction hle with
  | refl => exact h
  | step _ ih => exact extract_mono _ typename ss r ih

/-! ### Skipping and suppression -/

theorem extractSelection_typename (rec : Walker) (typename : String) (a : Option String)
    (ss : Option (List SelectionNode)) (fragments : FragmentMap) (schema : GraphQLSchema)
    (opts : FieldMaskPathsFromResolveInfoOptions) :
    extractSelection rec typename (.field "__typename" a ss) fragments schema opts = .ok [] := by
  simp [extractSelection]

theorem extractSelections_cons_of_ok_nil {rec : Walker} {typename : String} {s : SelectionNode}
    {fragments : FragmentMap} {schema : GraphQLSchema}
    {opts : FieldMaskPathsFromResolveInfoOptions}
    (h : extractSelection rec typename s fragments schema opts = .ok [])
    (rest : List SelectionNode) :
    extractSelections rec typename (s :: rest) fragments schema opts =
      extractSelections rec typename rest fragments schema opts := by
  simp only [extractSelections, h]
  cases extractSelections rec typename rest fragments schema opts <;> simp

theorem extractSelections_middle_of_ok_nil {rec : Walker} {typename : String} {s : SelectionNode}
    {fragments : FragmentMap} {schema : GraphQLSchema}
    {opts : FieldMaskPathsFromResolveInfoOptions}
    (h : extractSelection rec typename s fragments schema opts = .ok [])
    (pre post : List SelectionNode) :
    extractSelections rec typename (pre ++ s :: post) fragments schema opts =
      extractSelections rec typename (pre ++ post) fragments schema opts := by
  rw [extractSelections_append, extractSelections_append, extractSelections_cons_of_ok_nil h]

theorem extractSelection_suppressed {rec : Walker} {typename n : String} {a : Option String}
    {ss : Option (List SelectionNode)} {fragments : FragmentMap} {schema : GraphQLSchema}
    {opts : FieldMaskPathsFromResolveInfoOptions} {ty : GraphQLObjectType}
    {fld : GraphQLField} {g : GetFieldNameFunc}
    (hn : (n == "__typename") = false)
    (hobj : getObjectType typename schema = .ok ty)
    (hf : findField ty n = some fld)
    (hg : opts.getFieldName = some g)
    (hnone : g fld ty schema = none) :
    extractSelection rec typename (.field n a ss) fragments schema opts = .ok [] := by
  simp [extractSelection, hn, hobj, hf, hg, hnone]

/-! ### Schema membership -/

theorem getObjectType_ok_mem {name : String} {schema : GraphQLSchema} {ty : GraphQLObjectType}
    (h : getObjectType name schema = .ok ty) : GraphQLNamedType.object ty ∈ schema := by
  unfold getObjectType at h
  cases hf : getTypeFromSchema name schema with
  | none => rw [hf] at h; simp at h
  | some t =>
    rw [hf] at h
    cases t with
    | object o =>
      dsimp only at h
      have ho : o = ty := by
        injection h
      subst ho
      exact List.mem_of_find?_eq_some (by simpa [getTypeFromSchema] using hf)
    | abstract n => simp at h
    | scalar n => simp at h

theorem findField_name {ty : GraphQLObjectType} {n : String} {fld : GraphQLField}
    (h : findField ty n = some fld) : fld.name = n := by
  have hp := List.find?_some (by simpa [findField] using h)
  simpa using hp

theorem findField_mem {ty : GraphQLObjectType} {n : String} {fld : GraphQLField}
    (h : findField ty n = some fld) : fld ∈ ty.fields :=
  List.mem_of_find?_eq_some (by simpa [findField] using h)

/-! ### Paths as dot-joined segment lists -/

/-- Join a segment list with `.` separators (the shape of every path the
walker emits: one segment per traversed field). -/
def joinDot : List String → String
  | [] => ""
  | [s] => s
  | s :: rest => s ++ "." ++ joinDot rest

theorem joinDot_cons {segs : List String} (hne : segs ≠ []) (s : String) :
    joinDot (s :: segs) = s ++ "." ++ joinDot segs := by
  cases segs with
  | nil => exact absurd rfl hne
  | cons a l => rfl

/-- A well-formed mask path: a nonempty dot-joined list of segments, none
of which is the literal `__typename` and none of which contains a dot (so
the decomposition into segments is the evident one). -/
def goodPath (p : String) : Prop :=
  ∃ segs : List String, segs ≠ [] ∧ p = joinDot segs ∧
    ∀ s ∈ segs, s ≠ "__typename" ∧ s.data.contains '.' = false

/-- All field names declared by a named type are dot-free. -/
def namedTypeFieldsDotFree : GraphQLNamedType → Bool
  | .object o => o.fields.all (fun f => !(f.name.data.contains '.'))
  | _ => true

theorem extractSelection_goodPaths {rec : Walker} {fragments : FragmentMap}
    {schema : GraphQLSchema} {opts : FieldMaskPathsFromResolveInfoOptions}
    (hopts : opts.getFieldName = none)
    (hsch : schema.all namedTypeFieldsDotFree = true)
    (hrec : ∀ t ss res, rec t ss fragments schema opts = .ok res → ∀ p ∈ res, goodPath p)
    (typename : String) (s : SelectionNode) (ps : List String)
    (h : extractSelection rec typename s fragments schema opts = .ok ps) :
    ∀ p ∈ ps, goodPath p := by
  cases s with
  | field n a ss =>
    by_cases hn : (n == "__typename") = true
    · simp only [extractSelection, hn, if_true] at h
      cases h
      simp
    · simp only [extractSelection, hn, Bool.false_eq_true, if_false] at h
      cases hobj : getObjectType typename schema with
      | error e => rw [hobj] at h; simp at h
      | ok ty =>
        rw [hobj] at h
        dsimp only at h
        cases hf : findField ty n with
        | none => rw [hf] at h; simp at h
        | some fld =>
          rw [hf] at h
          dsimp only at h
          rw [hopts] at h
          dsimp only at h
          have hdot : fld.name.data.contains '.' = false := by
            have hm := getObjectType_ok_mem hobj
            have hall := List.all_eq_true.mp hsch _ hm
            simp only [namedTypeFieldsDotFree] at hall
            have := List.all_eq_true.mp hall _ (findField_mem hf)
            simpa using this
          have hnn : fld.name ≠ "__typename" := by
            rw [findField_name hf]
            intro hcontra
            rw [hcontra] at hn
            simp at hn
          cases ss with
          | none =>
            cases h
            intro p hp
            rw [List.mem_singleton] at hp
            subst hp
            refine ⟨[fld.name], by simp, rfl, ?_⟩
            intro s hs
            rw [List.mem_singleton] at hs
            subst hs
            exact ⟨hnn, hdot⟩
          | some sels =>
            dsimp only at h
            cases hr : rec fld.typeName (some sels) fragments schema opts with
            | error e => rw [hr] at h; simp at h
            | ok cs =>
              rw [hr] at h
              dsimp only at h
              cases h
              intro p hp
              rcases List.mem_map.mp hp with ⟨c, hc, hpc⟩
              rcases hrec _ _ _ hr c hc with ⟨segs, hne, hcj, hgood⟩
              refine ⟨fld.name :: segs, by simp, ?_, ?_⟩
              · rw [joinDot_cons hne, ← hcj, hpc]
              · intro x hx
                rcases List.mem_cons.mp hx with hx | hx
                · exact hx ▸ ⟨hnn, hdot⟩
                · exact hgood x hx
  | fragmentSpread fname =>
    simp only [extractSelection] at h
    cases hl : List.lookup fname fragments with
    | none => rw [hl] at h; simp at h
    | some frag =>
      rw [hl] at h
      dsimp only at h
      exact hrec _ _ _ h
  | inlineFragment cond sels =>
    simp only [extractSelection] at h
    exact hrec _ _ _ h

theorem extractSelections_goodPaths {rec : Walker} {fragments : FragmentMap}
    {schema : GraphQLSchema} {opts : FieldMaskPathsFromResolveInfoOptions}
    (hopts : opts.getFieldName = none)
    (hsch : schema.all namedTypeFieldsDotFree = true)
    (hrec : ∀ t ss res, rec t ss fragments schema opts = .ok res → ∀ p ∈ res, goodPath p)
    (typename : String) (sels : List SelectionNode) (res : List String)
    (h : extractSelections rec typename sels fragments schema opts = .ok res) :
    ∀ p ∈ res, goodPath p := by
  induction sels generalizing res with
  | nil =>
    simp only [extractSelections] at h
    cases h
    simp
  | cons s rest ih =>
    simp only [extractSelections] at h
    cases hs : extractSelection rec typename s fragments schema opts with
    | error e => rw [hs] at h; simp at h
    | ok ps =>
      rw [hs] at h
      dsimp only at h
      cases hrest : extractSelections rec typename rest fragments schema opts with
      | error e => rw [hrest] at h; simp at h
      | ok qs =>
        rw [hrest] at h
        dsimp only at h
        cases h
        intro p hp
        rcases List.mem_append.mp hp with hp | hp
        · exact extractSelection_goodPaths hopts hsch hrec typename s ps hs p hp
        · exact ih qs hrest p hp

theorem extract_goodPaths {fragments : FragmentMap} {schema : GraphQLSchema}
    {opts : FieldMaskPathsFromResolveInfoOptions}
    (hopts : opts.getFieldName = none)
    (hsch : schema.all namedTypeFieldsDotFree = true) :
    ∀ (fuel : Nat) (typename : String) (ss : Option (List SelectionNode)) (res : List String),
      extractFieldsFromGraphqlAst fuel typename ss fragments schema opts = .ok res →
      ∀ p ∈ res, goodPath p := by
  intro fuel
  induction fuel with
  | zero =>
    intro typename ss res h p hp
    cases ss with
    | none =>
      simp only [extractFieldsFromGraphqlAst] at h
      cases h
      simp at hp
    | some sels => simp [extractFieldsFromGraphqlAst] at h
  | succ fuel ih =>
    intro typename ss res h p hp
    cases ss with
    | none =>
      simp only [extractFieldsFromGraphqlAst] at h
      cases h
      simp at hp
    | some sels =>
      simp only [extractFieldsFromGraphqlAst] at h
      exact extractSelections_goodPaths hopts hsch ih typename sels res h p hp

theorem fieldMaskPaths_goodPaths {fragments : FragmentMap} {schema : GraphQLSchema}
    {opts : FieldMaskPathsFromResolveInfoOptions}
    (hopts : opts.getFieldName = none)
    (hsch : schema.all namedTypeFieldsDotFree = true)
    (fuel : Nat) (typename : String) (nodes : List (Option (List SelectionNode)))
    (res : List String)
    (h : fieldMaskPaths fuel typename nodes fragments schema opts = .ok res) :
    ∀ p ∈ res, goodPath p := by
  rw [fieldMaskPaths_eq_dedup] at h
  cases hw : walkNodes fuel typename nodes fragments schema opts with
  | error e => rw [hw] at h; simp at h
  | ok rss =>
    rw [hw] at h
    dsimp only at h
    cases h
    intro p hp
    have hpj := mem_of_mem_dedupFirstOcc _ _ hp
    rcases List.mem_flatten.mp hpj with ⟨rs, hrs, hprs⟩
    clear hp hpj
    induction nodes generalizing rss with
    | nil =>
      simp only [walkNodes] at hw
      cases hw
      simp at hrs
    | cons n rest ihn =>
      simp only [walkNodes] at hw
      cases hx : extractFieldsFromGraphqlAst fuel typename n fragments schema opts with
      | error e => rw [hx] at hw; simp at hw
      | ok ps =>
        rw [hx] at hw
        dsimp only at hw
        cases hw2 : walkNodes fuel typename rest fragments schema opts with
        | error e => rw [hw2] at hw; simp at hw
        | ok rss2 =>
          rw [hw2] at hw
          dsimp only at hw
          cases hw
          rcases List.mem_cons.mp hrs with hrs | hrs
          · exact extract_goodPaths hopts hsch fuel typename n _ hx p (hrs ▸ hprs)
          · exact ihn rss2 hw2 hrs

/-! ### Alias erasure -/

mutual
/-- Strip the query alias from a field selection, recursively. -/
def eraseAliasSel : SelectionNode → SelectionNode
  | .field n _ none => .field n none none
  | .field n _ (some l) => .field n none (some (eraseAliasList l))
  | .fragmentSpread f => .fragmentSpread f
  | .inlineFragment c l => .inlineFragment c (eraseAliasList l)

/-- Strip query aliases from every selection of a list. -/
def eraseAliasList : List SelectionNode → List SelectionNode
  | [] => []
  | s :: rest => eraseAliasSel s :: eraseAliasList rest
end

/-- Strip query aliases from an optional selection set. -/
def eraseAliasSelSet : Option (List SelectionNode) → Option (List SelectionNode)
  | none => none
  | some l => some (eraseAliasList l)

/-- Strip query aliases from every fragment body in the fragment table. -/
def eraseAliasFragments (fragments : FragmentMap) : FragmentMap :=
  fragments.map (fun kv => (kv.1, ⟨kv.2.typeCondition, eraseAliasList kv.2.selectionSet⟩))

theorem lookup_eraseAliasFragments (fname : String) (fragments : FragmentMap) :
    List.lookup fname (eraseAliasFragments fragments) =
      (List.lookup fname fragments).map
        (fun frag => ⟨frag.typeCondition, eraseAliasList frag.selectionSet⟩) := by
  induction fragments with
  | nil => rfl
  | cons kv rest ih =>
    obtain ⟨k, frag⟩ := kv
    simp only [eraseAliasFragments, List.map_cons, List.lookup_cons] at ih ⊢
    by_cases hk : (fname == k) = true
    · simp [hk]
    · simp only [hk, Bool.false_eq_true, if_false]
      exact ih

theorem extractSelection_eraseAlias {rec : Walker} {fragments : FragmentMap}
    {schema : GraphQLSchema} {opts : FieldMaskPathsFromResolveInfoOptions}
    (hrec : ∀ t ss, rec t (eraseAliasSelSet ss) (eraseAliasFragments fragments) schema opts =
      rec t ss fragments schema opts)
    (typename : String) (s : SelectionNode) :
    extractSelection rec typename (eraseAliasSel s) (eraseAliasFragments fragments) schema opts =
      extractSelection rec typename s fragments schema opts := by
  cases s with
  | field n a ss =>
    cases ss with
    | none =>
      simp only [eraseAliasSel, extractSelection]
    | some l =>
      simp only [eraseAliasSel, extractSelection]
      by_cases hn : (n == "__typename") = true
      · simp [hn]
      · simp only [hn, Bool.false_eq_true, if_false]
        cases hobj : getObjectType typename schema with
        | error e => rfl
        | ok ty =>
          dsimp only
          cases hf : findField ty n with
          | none => rfl
          | some fld =>
            dsimp only
            cases hname : (match opts.getFieldName with
              | some getFieldName => getFieldName fld ty schema
              | none => some fld.name) with
            | none => rfl
            | some fieldName =>
              dsimp only
              have := hrec fld.typeName (some l)
              simp only [eraseAliasSelSet] at this
              rw [this]
  | fragmentSpread fname =>
    simp only [eraseAliasSel, extractSelection, lookup_eraseAliasFragments]
    cases hl : List.lookup fname fragments with
    | none => rfl
    | some frag =>
      simp only [Option.map_some]
      have := hrec frag.typeCondition (some frag.selectionSet)
      simp only [eraseAliasSelSet] at this
      exact this
  | inlineFragment cond l =>
    simp only [eraseAliasSel, extractSelection]
    have := hrec (cond.getD typename) (some l)
    simp only [eraseAliasSelSet] at this
    exact this

theorem extractSelections_eraseAlias {rec : Walker} {fragments : FragmentMap}
    {schema : GraphQLSchema} {opts : FieldMaskPathsFromResolveInfoOptions}
    (hrec : ∀ t ss, rec t (eraseAliasSelSet ss) (eraseAliasFragments fragments) schema opts =
      rec t ss fragments schema opts)
    (typename : String) (sels : List SelectionNode) :
    extractSelections rec typename (eraseAliasList sels) (eraseAliasFragments fragments) schema opts =
      extractSelections rec typename sels fragments schema opts := by
  induction sels with
  | nil => rfl
  | cons s rest ih =>
    simp only [eraseAliasList, extractSelections]
    rw [extractSelection_eraseAlias hrec, ih]

theorem extract_eraseAlias {fragments : FragmentMap} {schema : GraphQLSchema}
    {opts : FieldMaskPathsFromResolveInfoOptions} :
    ∀ (fuel : Nat) (typename : String) (ss : Option (List SelectionNode)),
      extractFieldsFromGraphqlAst fuel typename (eraseAliasSelSet ss)
          (eraseAliasFragments fragments) schema opts =
        extractFieldsFromGraphqlAst fuel typename ss fragments schema opts := by
  intro fuel
  induction fuel with
  | zero =>
    intro typename ss
    cases ss <;> rfl
  | succ fuel ih =>
    intro typename ss
    cases ss with
    | none => rfl
    | some sels =>
      simp only [eraseAliasSelSet, extractFieldsFromGraphqlAst]
      exact extractSelections_eraseAlias ih typename sels

theorem fieldMaskPathsGo_eraseAlias {fragments : FragmentMap} {schema : GraphQLSchema}
    {opts : FieldMaskPathsFromResolveInfoOptions} (fuel : Nat) (typename : String)
    (nodes : List (Option (List SelectionNode))) :
    ∀ acc, fieldMaskPathsGo fuel typename (nodes.map eraseAliasSelSet)
        (eraseAliasFragments fragments) schema opts acc =
      fieldMaskPathsGo fuel typename nodes fragments schema opts acc := by
  induction nodes with
  | nil => intro acc; rfl
  | cons n rest ih =>
    intro acc
    simp only [List.map_cons, fieldMaskPathsGo, extract_eraseAlias]
    cases extractFieldsFromGraphqlAst fuel typename n fragments schema opts with
    | error e => rfl
    | ok ps => exact ih _

theorem fieldMaskPaths_eraseAlias {fragments : FragmentMap} {schema : GraphQLSchema}
    {opts : FieldMaskPathsFromResolveInfoOptions} (fuel : Nat) (typename : String)
    (nodes : List (Option (List SelectionNode))) :
    fieldMaskPaths fuel typename (nodes.map eraseAliasSelSet) (eraseAliasFragments fragments)
        schema opts =
      fieldMaskPaths fuel typename nodes fragments schema opts :=
  fieldMaskPathsGo_eraseAlias fuel typename nodes []

/-!
### The spec's full Walker

The repository at the version the spec describes also supports a
multi-name field-naming hook, an extra-fields hook and an abstract-type
hook.  The implementation of that version is not part of the sources here
(only its tests and the changelog are), so the following definitions are
modelled from the specification text (section 4.2 and 4.4).
-/

/-- Modelled from the spec: `resolveType` of the Type Resolver (section
4.3); the implementation of the spec's full walker is not among the
sources.  Returns the named type definition, failing with `UnknownType`. -/
def resolveType (name : String) (schema : GraphQLSchema) : Except Err GraphQLNamedType :=
  match getTypeFromSchema name schema with
  | none => .error (.unknownType name)
  | some t => .ok t

/-- Modelled from the spec: `resolveObjectType` of the Type Resolver
(section 4.3).  Fails with `NotAnObjectType` when the resolved definition
is not an object type. -/
def resolveObjectType (name : String) (schema : GraphQLSchema) : Except Err GraphQLObjectType :=
  match resolveType name schema with
  | .error e => .error e
  | .ok (.object o) => .ok o
  | .ok _ => .error (.notObjectType name)

/-- Modelled from the spec: the FieldContext record (section 3) assembled
for a `Field` selection and passed to the field-naming and extra-fields
hooks. -/
structure FieldContext where
  node : SelectionNode
  field : GraphQLField
  objectType : GraphQLObjectType
  schema : GraphQLSchema

/-- Modelled from the spec: the AbstractFieldContext record (section 3)
assembled when a fragment narrows an abstract type, passed to the
abstract-type hook.  `selections` is the body of the narrowing fragment
node. -/
structure AbstractFieldContext where
  selections : List SelectionNode
  abstractType : GraphQLNamedType
  concreteType : GraphQLNamedType
  field : GraphQLField
  schema : GraphQLSchema

/-- Modelled from the spec: the field-naming hook of section 4.4; `none`
suppresses the field, `some names` is one name or several (a single name
is the singleton list). -/
def GetFieldNamesFunc := FieldContext → Option (List String)

/-- Modelled from the spec: the extra-fields hook of section 4.4. -/
def GetExtraFieldPathsFunc := FieldContext → List String

/-- Modelled from the spec: the abstract-type-path hook of section 4.4; it
receives the context and a lazy callback computing the narrowed member's
own paths, and returns the full relative paths to append (its result is an
`Except` so a hook can surface an error raised by the callback). -/
def GetAbstractTypeFieldMaskPathsFunc :=
  AbstractFieldContext → (Unit → Except Err (List String)) → Except Err (List String)

/-- Modelled from the spec: the options bundle with the three optional
hook slots of section 4.4. -/
structure ExtractPathsOptions where
  getFieldName : Option GetFieldNamesFunc
  getExtraFieldPaths : Option GetExtraFieldPathsFunc
  getAbstractTypeFieldMaskPaths : Option GetAbstractTypeFieldMaskPathsFunc

/-- The type of the spec's recursive walker (typename, current field,
selection set of the node, fragment table, schema, options). -/
abbrev SpecWalker :=
  String → Option GraphQLField → Option (List SelectionNode) → FragmentMap → GraphQLSchema →
    ExtractPathsOptions → Except Err (List String)

/-- Modelled from the spec: the shared fragment-handling logic of section
4.2 (abstract-type narrowing), given the fragment's effective type
condition `fragmentTypename` and the fragment body `fragmentSelections`;
`rec` performs nested walks. -/
def handleFragment (rec : SpecWalker) (typename : String) (currentField : Option GraphQLField)
    (fragmentTypename : String) (fragmentSelections : List SelectionNode)
    (fragments : FragmentMap) (schema : GraphQLSchema) (opts : ExtractPathsOptions) :
    Except Err (List String) :=
  match resolveType fragmentTypename schema with
  | .error e => .error e
  | .ok fragmentType =>
    match resolveType typename schema with
    | .error e => .error e
    | .ok currentType =>
      if currentType.isAbstract then
        if fragmentTypename == typename then
          rec typename currentField (some fragmentSelections) fragments schema opts
        else
          match opts.getAbstractTypeFieldMaskPaths with
          | some hook =>
            match currentField with
            | none => .error .insufficientContext
            | some fld =>
              hook
                { selections := fragmentSelections, abstractType := currentType,
                  concreteType := fragmentType, field := fld, schema := schema }
                (fun _ => rec fragmentTypename currentField (some fragmentSelections)
                  fragments schema opts)
          | none => .ok []
      else if !fragmentType.isAbstract && fragmentTypename != typename then
        .ok []
      else
        rec typename currentField (some fragmentSelections) fragments schema opts

/-- Modelled from the spec: the `Field` / `FragmentSpread` /
`InlineFragment` dispatch of the spec's Walker (section 4.2), for one
selection. -/
def extractPathsSelection (rec : SpecWalker) (typename : String)
    (currentField : Option GraphQLField) (selection : SelectionNode)
    (fragments : FragmentMap) (schema : GraphQLSchema) (opts : ExtractPathsOptions) :
    Except Err (List String) :=
  match selection with
  | .field name _aliasName selectionSet =>
    if name == "__typename" then .ok []
    else
      match resolveObjectType typename schema with
      | .error e => .error e
      | .ok objectType =>
        match findField objectType name with
        | none => .error (.unknownField typename name)
        | some fld =>
          let ctx : FieldContext :=
            { node := selection, field := fld, objectType := objectType, schema := schema }
          let extraFields : List String :=
            match opts.getExtraFieldPaths with
            | some hook => hook ctx
            | none => []
          match (match opts.getFieldName with
            | some hook => hook ctx
            | none => some [fld.name]) with
          | none => .ok extraFields
          | some names =>
            match selectionSet with
            | some _ =>
              match rec fld.typeName (some fld) selectionSet fragments schema opts with
              | .error e => .error e
              | .ok childPaths =>
                .ok (extraFields ++ names.flatMap (fun nm => childPaths.map (fun c => nm ++ "." ++ c)))
            | none => .ok (extraFields ++ names)
  | .fragmentSpread fragmentName =>
    match List.lookup fragmentName fragments with
    | none => .error (.unknownFragment fragmentName)
    | some fragment =>
      handleFragment rec typename currentField fragment.typeCondition fragment.selectionSet
        fragments schema opts
  | .inlineFragment typeCondition selections =>
    handleFragment rec typename currentField (typeCondition.getD typename) selections
      fragments schema opts

/-- Modelled from the spec: the selection-list loop of the spec's Walker. -/
def extractPathsSelections (rec : SpecWalker) (typename : String)
    (currentField : Option GraphQLField) (selections : List SelectionNode)
    (fragments : FragmentMap) (schema : GraphQLSchema) (opts : ExtractPathsOptions) :
    Except Err (List String) :=
  match selections with
  | [] => .ok []
  | s :: rest =>
    match extractPathsSelection rec typename currentField s fragments schema opts with
    | .error e => .error e
    | .ok ps =>
      match extractPathsSelections rec typename currentField rest fragments schema opts with
      | .error e => .error e
      | .ok qs => .ok (ps ++ qs)

/-- Modelled from the spec: `extractPaths`, the spec's Walker (section
4.2), fuel-indexed like the source walker. -/
def extractPaths : Nat → SpecWalker
  | 0 => fun _ _ selectionSet _ _ _ =>
    match selectionSet with
    | none => .ok []
    | some _ => .error .outOfFuel
  | fuel + 1 => fun typename currentField selectionSet fragments schema opts =>
    match selectionSet with
    | none => .ok []
    | some sels =>
      extractPathsSelections (extractPaths fuel) typename currentField sels fragments schema opts

/-- Modelled from the spec: the node loop of `computeFieldMaskPaths`
(section 4.1). -/
def computeFieldMaskPathsGo (fuel : Nat) (typename : String)
    (nodes : List (Option (List SelectionNode))) (fragments : FragmentMap)
    (schema : GraphQLSchema) (opts : ExtractPathsOptions) (pathSet : List String) :
    Except Err (List String) :=
  match nodes with
  | [] => .ok pathSet
  | n :: rest =>
    match extractPaths fuel typename none n fragments schema opts with
    | .error e => .error e
    | .ok paths =>
      computeFieldMaskPathsGo fuel typename rest fragments schema opts
        (paths.foldl insertPath pathSet)

/-- Modelled from the spec: `computeFieldMaskPaths`, the Root Entry
(section 4.1): one Walker run per top-level node, with no enclosing field,
unioned in first-occurrence order. -/
def computeFieldMaskPaths (fuel : Nat) (typename : String)
    (nodes : List (Option (List SelectionNode))) (fragments : FragmentMap)
    (schema : GraphQLSchema) (opts : ExtractPathsOptions) : Except Err (List String) :=
  computeFieldMaskPathsGo fuel typename nodes fragments schema opts []

/-! ### Ok-decomposition of selection lists -/

theorem extractSelections_cons_ok {rec : Walker} {typename : String} {s : SelectionNode}
    {rest : List SelectionNode} {fragments : FragmentMap} {schema : GraphQLSchema}
    {opts : FieldMaskPathsFromResolveInfoOptions} {r : List String}
    (h : extractSelections rec typename (s :: rest) fragments schema opts = .ok r) :
    ∃ a b, extractSelection rec typename s fragments schema opts = .ok a ∧
      extractSelections rec typename rest fragments schema opts = .ok b ∧ r = a ++ b := by
  simp only [extractSelections] at h
  cases hs : extractSelection rec typename s fragments schema opts with
  | error e => rw [hs] at h; simp at h
  | ok a =>
    rw [hs] at h
    dsimp only at h
    cases hrest : extractSelections rec typename rest fragments schema opts with
    | error e => rw [hrest] at h; simp at h
    | ok b =>
      rw [hrest] at h
      dsimp only at h
      cases h
      exact ⟨a, b, rfl, rfl, rfl⟩

theorem extractSelections_cons_ok_of {rec : Walker} {typename : String} {s : SelectionNode}
    {rest : List SelectionNode} {fragments : FragmentMap} {schema : GraphQLSchema}
    {opts : FieldMaskPathsFromResolveInfoOptions} {a b : List String}
    (h₁ : extractSelection rec typename s fragments schema opts = .ok a)
    (h₂ : extractSelections rec typename rest fragments schema opts = .ok b) :
    extractSelections rec typename (s :: rest) fragments schema opts = .ok (a ++ b) := by
  simp only [extractSelections, h₁, h₂]

theorem extractSelections_append_ok {rec : Walker} {typename : String}
    {l₁ l₂ : List SelectionNode} {fragments : FragmentMap} {schema : GraphQLSchema}
    {opts : FieldMaskPathsFromResolveInfoOptions} {r : List String}
    (h : extractSelections rec typename (l₁ ++ l₂) fragments schema opts = .ok r) :
    ∃ a b, extractSelections rec typename l₁ fragments schema opts = .ok a ∧
      extractSelections rec typename l₂ fragments schema opts = .ok b ∧ r = a ++ b := by
  rw [extractSelections_append] at h
  cases h₁ : extractSelections rec typename l₁ fragments schema opts with
  | error e => rw [h₁] at h; simp at h
  | ok a =>
    rw [h₁] at h
    dsimp only at h
    cases h₂ : extractSelections rec typename l₂ fragments schema opts with
    | error e => rw [h₂] at h; simp at h
    | ok b =>
      rw [h₂] at h
      dsimp only at h
      cases h
      exact ⟨a, b, rfl, rfl, rfl⟩

theorem extractSelections_append_ok_of {rec : Walker} {typename : String}
    {l₁ l₂ : List SelectionNode} {fragments : FragmentMap} {schema : GraphQLSchema}
    {opts : FieldMaskPathsFromResolveInfoOptions} {a b : List String}
    (h₁ : extractSelections rec typename l₁ fragments schema opts = .ok a)
    (h₂ : extractSelections rec typename l₂ fragments schema opts = .ok b) :
    extractSelections rec typename (l₁ ++ l₂) fragments schema opts = .ok (a ++ b) := by
  rw [extractSelections_append, h₁, h₂]

/-! ### Concrete fixtures (mirroring the repository's test schema) -/

/-- Object1 with `targetField` and `otherField`, as in the tests. -/
def object1Type : GraphQLObjectType :=
  ⟨"Object1", [⟨"targetField", "String"⟩, ⟨"otherField", "String"⟩]⟩

/-- Object2 with `field2`, as in the tests. -/
def object2Type : GraphQLObjectType :=
  ⟨"Object2", [⟨"field2", "String"⟩]⟩

/-- Parent with a union-typed `union` field and an `object1` field. -/
def parentType : GraphQLObjectType :=
  ⟨"Parent", [⟨"union", "UnionType"⟩, ⟨"object1", "Object1"⟩]⟩

/-- A small schema shaped like the repository's test schema. -/
def testSchema : GraphQLSchema :=
  [.object ⟨"Query", [⟨"parent", "Parent"⟩, ⟨"object1", "Object1"⟩]⟩,
   .object parentType, .object object1Type, .object object2Type,
   .abstract "UnionType", .scalar "String"]

/-- Fragment `Object2Frag on Object2 { field2 }`. -/
def object2Frag : FragmentDefinitionNode := ⟨"Object2", [.field "field2" none none]⟩

/-- Fragment `SameTypeFrag on Object1 { otherField }`. -/
def sameTypeFrag : FragmentDefinitionNode := ⟨"Object1", [.field "otherField" none none]⟩

/-- The fragment table for the fixtures. -/
def testFragments : FragmentMap :=
  [("Object2Frag", object2Frag), ("SameTypeFrag", sameTypeFrag)]

/-- No hooks configured (source walker options). -/
def noHookOpts : FieldMaskPathsFromResolveInfoOptions := ⟨none⟩

/-- No hooks configured (spec walker options). -/
def specNoHookOpts : ExtractPathsOptions := ⟨none, none, none⟩

/-- A degenerate naming hook that renames every field to `__typename`. -/
def typenameHook : GetFieldNameFunc := fun _ _ _ => some "__typename"

/-- A naming hook that suppresses `targetField` and keeps other names. -/
def suppressTargetHook : GetFieldNameFunc :=
  fun fld _ _ => if fld.name == "targetField" then none else some fld.name

/-- A spec-walker naming hook that fans `object1` out into two names. -/
def fanoutHook : GetFieldNamesFunc :=
  fun ctx => if ctx.field.name == "object1" then some ["a", "b"] else some [ctx.field.name]

/-- Spec-walker options carrying only the fan-out naming hook. -/
def fanoutOpts : ExtractPathsOptions := ⟨some fanoutHook, none, none⟩

/-- A spec-walker extra-fields hook adding `dep1`/`dep2` to `object1`. -/
def extraHook : GetExtraFieldPathsFunc :=
  fun ctx => if ctx.field.name == "object1" then ["dep1", "dep2"] else []

/-- Spec-walker options carrying only the extra-fields hook. -/
def extraOpts : ExtractPathsOptions := ⟨none, some extraHook, none⟩

/-!
## Claim theorems
-/

/-- C1: for every call to the root entry point (`fieldMaskPaths`) with any
list of selection nodes, the result is exactly the first-occurrence
deduplication of the concatenation of the Walker's results for the nodes in
order (each duplicate collapses to its first appearance, insertion order,
not sorted), and on success the result list has no duplicates. -/
theorem C1_root_entry_first_occurrence_dedup (fuel : Nat) (typename : String)
    (nodes : List (Option (List SelectionNode))) (fragments : FragmentMap)
    (schema : GraphQLSchema) (opts : FieldMaskPathsFromResolveInfoOptions) :
    (fieldMaskPaths fuel typename nodes fragments schema opts =
      match walkNodes fuel typename nodes fragments schema opts with
      | .error e => .error e
      | .ok rss => .ok (dedupFirstOcc rss.flatten)) ∧
    (∀ res, fieldMaskPaths fuel typename nodes fragments schema opts = .ok res → res.Nodup) := by
  refine ⟨fieldMaskPaths_eq_dedup fuel typename nodes fragments schema opts, ?_⟩
  intro res hres
  rw [fieldMaskPaths_eq_dedup] at hres
  cases hw : walkNodes fuel typename nodes fragments schema opts with
  | error e => rw [hw] at hres; simp at hres
  | ok rss =>
    rw [hw] at hres
    dsimp only at hres
    cases hres
    exact dedupFirstOcc_nodup _

/-- Witness for C1 at a concrete query requesting `targetField` twice:
the duplicate collapses and the result is duplicate-free. -/
theorem C1_witness : (["targetField", "otherField"] : List String).Nodup :=
  (C1_root_entry_first_occurrence_dedup 3 "Object1"
      [some [.field "targetField" none none, .field "targetField" none none,
        .field "otherField" none none]]
      [] testSchema noHookOpts).2
    ["targetField", "otherField"] (by rfl)

/-- C5 counterexample: with the root typename `Object11111` absent from the
schema and a selection set containing only `__typename`, the extraction
completes with an empty result instead of raising `UnknownType` — the type
is only resolved when a non-`__typename` field selection is processed, so
the claim's "regardless of the content of the selection set" fails. -/
theorem C5_counterexample :
    getTypeFromSchema "Object11111" testSchema = none ∧
    fieldMaskPaths 5 "Object11111" [some [.field "__typename" none none]] [] testSchema
      noHookOpts = .ok [] :=
  ⟨rfl, rfl⟩

/-- C5 (amended): an unknown root typename raises `UnknownType` as soon as
the walk processes a non-`__typename` field selection against it — in
particular whenever the first selection of the first node is such a field;
selection sets that contain no such field (only `__typename`, or only
fragments carrying their own type conditions, or no selection set at all)
do not consult the root typename and raise no error. -/
theorem C5_unknown_type_raised_at_first_field (typename : String) (schema : GraphQLSchema)
    (hmiss : getTypeFromSchema typename schema = none) (n : String)
    (hn : (n == "__typename") = false) (fuel : Nat) (a : Option String)
    (ss : Option (List SelectionNode)) (rest : List SelectionNode)
    (nodes : List (Option (List SelectionNode))) (fragments : FragmentMap)
    (opts : FieldMaskPathsFromResolveInfoOptions) :
    fieldMaskPaths (fuel + 1) typename ((some (.field n a ss :: rest)) :: nodes)
      fragments schema opts = .error (.unknownType typename) := by
  simp [fieldMaskPaths, fieldMaskPathsGo, extractFieldsFromGraphqlAst, extractSelections,
    extractSelection, getObjectType, hmiss, hn]

/-- Witness for the amended C5 at a concrete unknown typename and a plain
field selection. -/
theorem C5_witness :
    fieldMaskPaths 4 "Object11111" [some [.field "targetField" none none]] [] testSchema
      noHookOpts = .error (.unknownType "Object11111") :=
  C5_unknown_type_raised_at_first_field "Object11111" testSchema (by rfl) "targetField"
    (by rfl) 3 none none [] [] [] noHookOpts

/-- C6: when the configured naming hook returns `null` for a field, the
field is suppressed entirely: its selection contributes no paths, the walk
never descends into its sub-selection set — the first conjunct holds for
every continuation `rec`, including one that fails on every call, so no
nested walk (and hence no hook invocation for any descendant) takes
place — and removing the selection from any selection list leaves the
walker's result unchanged. -/
theorem C6_null_naming_hook_suppresses (typename n : String) (fragments : FragmentMap)
    (schema : GraphQLSchema) (opts : FieldMaskPathsFromResolveInfoOptions)
    (ty : GraphQLObjectType) (fld : GraphQLField) (g : GetFieldNameFunc)
    (hn : (n == "__typename") = false)
    (hobj : getObjectType typename schema = .ok ty)
    (hf : findField ty n = some fld)
    (hg : opts.getFieldName = some g)
    (hnone : g fld ty schema = none) :
    (∀ (rec : Walker) (a : Option String) (ss : Option (List SelectionNode)),
      extractSelection rec typename (.field n a ss) fragments schema opts = .ok []) ∧
    (∀ (rec : Walker) (a : Option String) (ss : Option (List SelectionNode))
        (pre post : List SelectionNode),
      extractSelections rec typename (pre ++ .field n a ss :: post) fragments schema opts =
        extractSelections rec typename (pre ++ post) fragments schema opts) ∧
    (∀ (fuel : Nat) (a : Option String) (ss : Option (List SelectionNode))
        (pre post : List SelectionNode),
      extractFieldsFromGraphqlAst (fuel + 1) typename (some (pre ++ .field n a ss :: post))
          fragments schema opts =
        extractFieldsFromGraphqlAst (fuel + 1) typename (some (pre ++ post))
          fragments schema opts) := by
  refine ⟨fun rec a ss => extractSelection_suppressed hn hobj hf hg hnone, ?_, ?_⟩
  · intro rec a ss pre post
    exact extractSelections_middle_of_ok_nil (extractSelection_suppressed hn hobj hf hg hnone)
      pre post
  · intro fuel a ss pre post
    simp only [extractFieldsFromGraphqlAst]
    exact extractSelections_middle_of_ok_nil (extractSelection_suppressed hn hobj hf hg hnone)
      pre post

/-- Witness for C6: with a hook suppressing `targetField`, a query
selecting `targetField { otherField }` and `otherField` yields exactly what
the query without the suppressed field yields. -/
theorem C6_witness :
    extractFieldsFromGraphqlAst 3 "Object1"
        (some [.field "targetField" none (some [.field "otherField" none none]),
          .field "otherField" none none]) [] testSchema ⟨some suppressTargetHook⟩ =
      extractFieldsFromGraphqlAst 3 "Object1" (some [.field "otherField" none none]) []
        testSchema ⟨some suppressTargetHook⟩ :=
  (C6_null_naming_hook_suppresses "Object1" "targetField" [] testSchema
      ⟨some suppressTargetHook⟩ object1Type ⟨"targetField", "String"⟩ suppressTargetHook
      (by rfl) (by rfl) (by rfl) (by rfl) (by rfl)).2.2 2 none
    (some [.field "otherField" none none]) [] [.field "otherField" none none]

/-- C7 counterexample: the claim quantifies over every hook configuration,
but a naming hook may return the string `__typename` itself; with such a
hook the result path list is exactly `["__typename"]`, a path consisting of
the literal segment `__typename`. -/
theorem C7_counterexample :
    fieldMaskPaths 2 "Object1" [some [.field "targetField" none none]] [] testSchema
      ⟨some typenameHook⟩ = .ok ["__typename"] := rfl

/-- C7 (amended): a field selection named `__typename` is always skipped —
it contributes no paths and its handling never invokes the walker or any
hook, under every configuration — and, when no naming hook is configured
and every schema field name is dot-free, each path of a successful result
decomposes into dot-joined segments none of which is `__typename` and none
of which contains a dot, so no result path contains the literal segment
`__typename`.  (A naming hook, by contrast, may emit any string, including
`__typename` — see the counterexample.) -/
theorem C7_typename_skipped_and_absent_by_default :
    (∀ (rec : Walker) (typename : String) (a : Option String)
        (ss : Option (List SelectionNode)) (fragments : FragmentMap)
        (schema : GraphQLSchema) (opts : FieldMaskPathsFromResolveInfoOptions)
        (rest : List SelectionNode),
      extractSelection rec typename (.field "__typename" a ss) fragments schema opts = .ok [] ∧
      extractSelections rec typename (.field "__typename" a ss :: rest) fragments schema opts =
        extractSelections rec typename rest fragments schema opts) ∧
    (∀ (fragments : FragmentMap) (schema : GraphQLSchema)
        (opts : FieldMaskPathsFromResolveInfoOptions),
      opts.getFieldName = none → schema.all namedTypeFieldsDotFree = true →
      ∀ (fuel : Nat) (typename : String) (nodes : List (Option (List SelectionNode)))
          (res : List String),
        fieldMaskPaths fuel typename nodes fragments schema opts = .ok res →
        ∀ p ∈ res, goodPath p) := by
  constructor
  · intro rec typename a ss fragments schema opts rest
    exact ⟨extractSelection_typename rec typename a ss fragments schema opts,
      extractSelections_cons_of_ok_nil
        (extractSelection_typename rec typename a ss fragments schema opts) rest⟩
  · intro fragments schema opts h1 h2 fuel typename nodes res hres
    exact fieldMaskPaths_goodPaths h1 h2 fuel typename nodes res hres

/-- Witness for the amended C7: a nested query alongside `__typename`
yields the path `object1.targetField`, which decomposes into dot-free
segments none of which is `__typename`. -/
theorem C7_witness : goodPath "object1.targetField" :=
  C7_typename_skipped_and_absent_by_default.2 [] testSchema noHookOpts (by rfl) (by rfl)
    3 "Parent"
    [some [.field "object1" none (some [.field "targetField" none none]),
      .field "__typename" none none]]
    ["object1.targetField"] (by rfl) "object1.targetField" (by simp)

/-- C9: query aliases never influence the output — erasing all aliases
from the selection nodes and the fragment table leaves the walker's result
unchanged (hence any two inputs that agree after alias erasure produce
identical results), and two selections of the same field under different
aliases, with no naming hook configured, produce the single path given by
the schema field name, deduplicated to one occurrence. -/
theorem C9_alias_independence :
    (∀ (fuel : Nat) (typename : String) (ss : Option (List SelectionNode))
        (fragments : FragmentMap) (schema : GraphQLSchema)
        (opts : FieldMaskPathsFromResolveInfoOptions),
      extractFieldsFromGraphqlAst fuel typename (eraseAliasSelSet ss)
          (eraseAliasFragments fragments) schema opts =
        extractFieldsFromGraphqlAst fuel typename ss fragments schema opts) ∧
    (∀ (fuel : Nat) (typename : String) (nodes₁ nodes₂ : List (Option (List SelectionNode)))
        (fragments₁ fragments₂ : FragmentMap) (schema : GraphQLSchema)
        (opts : FieldMaskPathsFromResolveInfoOptions),
      nodes₁.map eraseAliasSelSet = nodes₂.map eraseAliasSelSet →
      eraseAliasFragments fragments₁ = eraseAliasFragments fragments₂ →
      fieldMaskPaths fuel typename nodes₁ fragments₁ schema opts =
        fieldMaskPaths fuel typename nodes₂ fragments₂ schema opts) ∧
    (∀ (fuel : Nat) (typename n : String) (a₁ a₂ : Option String) (fragments : FragmentMap)
        (schema : GraphQLSchema) (ty : GraphQLObjectType) (fld : GraphQLField),
      getObjectType typename schema = .ok ty → findField ty n = some fld →
      (n == "__typename") = false →
      fieldMaskPaths (fuel + 1) typename [some [.field n a₁ none, .field n a₂ none]]
        fragments schema ⟨none⟩ = .ok [n]) := by
  refine ⟨fun fuel typename ss fragments schema opts => extract_eraseAlias fuel typename ss,
    ?_, ?_⟩
  · intro fuel typename nodes₁ nodes₂ fragments₁ fragments₂ schema opts h1 h2
    rw [← fieldMaskPaths_eraseAlias fuel typename nodes₁, h1, h2,
      fieldMaskPaths_eraseAlias fuel typename nodes₂]
  · intro fuel typename n a₁ a₂ fragments schema ty fld hobj hf hn
    have hname := findField_name hf
    subst hname
    simp [fieldMaskPaths, fieldMaskPathsGo, extractFieldsFromGraphqlAst, extractSelections,
      extractSelection, hobj, hf, hn, insertPath]

/-- Witness for C9: selecting `targetField` twice under two different
aliases, with no naming hook, produces the single path `targetField`. -/
theorem C9_witness :
    fieldMaskPaths 3 "Object1"
        [some [.field "targetField" (some "alias1") none,
          .field "targetField" (some "alias2") none]] [] testSchema noHookOpts =
      .ok ["targetField"] :=
  C9_alias_independence.2.2 2 "Object1" "targetField" (some "alias1") (some "alias2") []
    testSchema object1Type ⟨"targetField", "String"⟩ (by rfl) (by rfl) (by rfl)

/-- C10: the paths contributed by a fragment spread — or by an inline
fragment carrying a type condition — are computed solely against the
fragment's declared type condition: the contribution is the same for any
two values of the enclosing current typename, and it equals the Walker's
result on the fragment body with the type condition as the typename. -/
theorem C10_fragment_condition_is_sole_authority :
    (∀ (rec : Walker) (t₁ t₂ F : String) (fragments : FragmentMap) (schema : GraphQLSchema)
        (opts : FieldMaskPathsFromResolveInfoOptions),
      extractSelection rec t₁ (.fragmentSpread F) fragments schema opts =
        extractSelection rec t₂ (.fragmentSpread F) fragments schema opts) ∧
    (∀ (rec : Walker) (t₁ t₂ cond : String) (sels : List SelectionNode)
        (fragments : FragmentMap) (schema : GraphQLSchema)
        (opts : FieldMaskPathsFromResolveInfoOptions),
      extractSelection rec t₁ (.inlineFragment (some cond) sels) fragments schema opts =
        extractSelection rec t₂ (.inlineFragment (some cond) sels) fragments schema opts) ∧
    (∀ (fuel : Nat) (typename F : String) (fragments : FragmentMap) (schema : GraphQLSchema)
        (opts : FieldMaskPathsFromResolveInfoOptions) (frag : FragmentDefinitionNode),
      List.lookup F fragments = some frag →
      extractFieldsFromGraphqlAst (fuel + 1) typename (some [.fragmentSpread F])
          fragments schema opts =
        extractFieldsFromGraphqlAst fuel frag.typeCondition (some frag.selectionSet)
          fragments schema opts) ∧
    (∀ (fuel : Nat) (typename cond : String) (sels : List SelectionNode)
        (fragments : FragmentMap) (schema : GraphQLSchema)
        (opts : FieldMaskPathsFromResolveInfoOptions),
      extractFieldsFromGraphqlAst (fuel + 1) typename (some [.inlineFragment (some cond) sels])
          fragments schema opts =
        extractFieldsFromGraphqlAst fuel cond (some sels) fragments schema opts) := by
  refine ⟨fun rec t₁ t₂ F fragments schema opts => rfl,
    fun rec t₁ t₂ cond sels fragments schema opts => rfl, ?_, ?_⟩
  · intro fuel typename F fragments schema opts frag hF
    simp only [extractFieldsFromGraphqlAst, extractSelections, extractSelection, hF]
    cases hx : extractFieldsFromGraphqlAst fuel frag.typeCondition (some frag.selectionSet)
        fragments schema opts with
    | error e => rfl
    | ok ps => simp
  · intro fuel typename cond sels fragments schema opts
    simp only [extractFieldsFromGraphqlAst, extractSelections, extractSelection, Option.getD]
    cases hx : extractFieldsFromGraphqlAst fuel cond (some sels) fragments schema opts with
    | error e => rfl
    | ok ps => simp

/-- Witness for C10: spreading `SameTypeFrag` under the enclosing typename
`UnionType` walks the fragment body against its own condition `Object1`. -/
theorem C10_witness :
    extractFieldsFromGraphqlAst 3 "UnionType" (some [.fragmentSpread "SameTypeFrag"])
        testFragments testSchema noHookOpts =
      extractFieldsFromGraphqlAst 2 "Object1" (some [.field "otherField" none none])
        testFragments testSchema noHookOpts :=
  C10_fragment_condition_is_sole_authority.2.2.1 2 "UnionType" "SameTypeFrag" testFragments
    testSchema noHookOpts sameTypeFrag (by rfl)

theorem extract_succ (fuel : Nat) (typename : String) (sels : List SelectionNode)
    (fragments : FragmentMap) (schema : GraphQLSchema)
    (opts : FieldMaskPathsFromResolveInfoOptions) :
    extractFieldsFromGraphqlAst (fuel + 1) typename (some sels) fragments schema opts =
      extractSelections (extractFieldsFromGraphqlAst fuel) typename sels fragments schema opts :=
  rfl

/-- C8: fragment transparency — with fragment `F on T { … }` whose type
condition `T` equals the current typename, a selection list
`pre ++ [...F] ++ post` terminates with result `r` (for some fuel) exactly
when the selection list with the fragment's body inlined in place,
`pre ++ body ++ post`, terminates with the same result `r`; in particular
`{ a ...F }` yields the same path list as `{ a b }` for `F on T { b }`. -/
theorem C8_fragment_transparency {fragments : FragmentMap} {schema : GraphQLSchema}
    {opts : FieldMaskPathsFromResolveInfoOptions} {F : String}
    {frag : FragmentDefinitionNode}
    (hF : List.lookup F fragments = some frag) (typename : String)
    (hcond : frag.typeCondition = typename) (pre post : List SelectionNode)
    (r : List String) :
    (∃ fuel, extractFieldsFromGraphqlAst fuel typename
        (some (pre ++ .fragmentSpread F :: post)) fragments schema opts = .ok r) ↔
    (∃ fuel, extractFieldsFromGraphqlAst fuel typename
        (some (pre ++ frag.selectionSet ++ post)) fragments schema opts = .ok r) := by
  constructor
  · rintro ⟨fuel, h⟩
    cases fuel with
    | zero => simp [extractFieldsFromGraphqlAst] at h
    | succ f =>
      rw [extract_succ] at h
      rcases extractSelections_append_ok h with ⟨a, b, ha, hb, hr⟩
      rcases extractSelections_cons_ok hb with ⟨c, d, hc, hd, hbcd⟩
      have hc' : extractFieldsFromGraphqlAst f frag.typeCondition (some frag.selectionSet)
          fragments schema opts = .ok c := by
        simpa [extractSelection, hF] using hc
      rw [hcond] at hc'
      cases f with
      | zero => simp [extractFieldsFromGraphqlAst] at hc'
      | succ f' =>
        rw [extract_succ] at hc'
        have hcf : extractSelections (extractFieldsFromGraphqlAst (f' + 1)) typename
            frag.selectionSet fragments schema opts = .ok c :=
          extractSelections_mono_rec (fun t ss rr hh => extract_mono f' t ss rr hh)
            typename frag.selectionSet c hc'
        refine ⟨f' + 1 + 1, ?_⟩
        rw [extract_succ, hr, hbcd, ← List.append_assoc]
        exact extractSelections_append_ok_of (extractSelections_append_ok_of ha hcf) hd
  · rintro ⟨fuel, h⟩
    cases fuel with
    | zero => simp [extractFieldsFromGraphqlAst] at h
    | succ f =>
      rw [extract_succ] at h
      rcases extractSelections_append_ok h with ⟨ac, d, hac, hd, hr⟩
      rcases extractSelections_append_ok hac with ⟨a, c, ha, hc, hac2⟩
      refine ⟨f + 2, ?_⟩
      rw [extract_succ]
      have hmono : ∀ t ss rr,
          extractFieldsFromGraphqlAst f t ss fragments schema opts = .ok rr →
          extractFieldsFromGraphqlAst (f + 1) t ss fragments schema opts = .ok rr :=
        fun t ss rr hh => extract_mono f t ss rr hh
      have ha' := extractSelections_mono_rec hmono typename pre a ha
      have hd' := extractSelections_mono_rec hmono typename post d hd
      have hspread : extractSelection (extractFieldsFromGraphqlAst (f + 1)) typename
          (.fragmentSpread F) fragments schema opts = .ok c := by
        simp only [extractSelection, hF, hcond]
        rw [extract_succ]
        exact hc
      rw [hr, hac2, List.append_assoc]
      exact extractSelections_append_ok_of ha' (extractSelections_cons_ok_of hspread hd')

/-- Witness for C8 at the spec's own example: `{ targetField ...F }` with
`F on Object1 { otherField }` yields the same result as the inlined
`{ targetField otherField }`. -/
theorem C8_witness :
    ∃ fuel, extractFieldsFromGraphqlAst fuel "Object1"
      (some ([.field "targetField" none none] ++ sameTypeFrag.selectionSet ++ []))
      testFragments testSchema noHookOpts = .ok ["targetField", "otherField"] := by
  have hF : List.lookup "SameTypeFrag" testFragments = some sameTypeFrag := rfl
  exact (C8_fragment_transparency hF "Object1" rfl [.field "targetField" none none] []
    ["targetField", "otherField"]).mp ⟨2, rfl⟩

theorem extractPaths_succ (fuel : Nat) (typename : String)
    (currentField : Option GraphQLField) (sels : List SelectionNode)
    (fragments : FragmentMap) (schema : GraphQLSchema) (opts : ExtractPathsOptions) :
    extractPaths (fuel + 1) typename currentField (some sels) fragments schema opts =
      extractPathsSelections (extractPaths fuel) typename currentField sels fragments schema
        opts :=
  rfl

/-- C2: with no abstract-type-path hook configured, a fragment (inline or
spread) whose type condition narrows an abstract current type to a
different member type contributes zero paths; and for an abstract-typed
field whose selection set consists of two such fragments, the whole
extraction returns the empty path list. -/
theorem C2_abstract_default_ignore (schema : GraphQLSchema) (opts : ExtractPathsOptions)
    (hhook : opts.getAbstractTypeFieldMaskPaths = none) :
    (∀ (rec : SpecWalker) (typename : String) (currentField : Option GraphQLField)
        (cond : String) (csels : List SelectionNode) (fragments : FragmentMap)
        (curTy fragTy : GraphQLNamedType),
      resolveType typename schema = .ok curTy → curTy.isAbstract = true →
      resolveType cond schema = .ok fragTy → (cond == typename) = false →
      extractPathsSelection rec typename currentField (.inlineFragment (some cond) csels)
        fragments schema opts = .ok []) ∧
    (∀ (rec : SpecWalker) (typename : String) (currentField : Option GraphQLField)
        (F : String) (fragments : FragmentMap) (frag : FragmentDefinitionNode)
        (curTy fragTy : GraphQLNamedType),
      List.lookup F fragments = some frag →
      resolveType typename schema = .ok curTy → curTy.isAbstract = true →
      resolveType frag.typeCondition schema = .ok fragTy →
      (frag.typeCondition == typename) = false →
      extractPathsSelection rec typename currentField (.fragmentSpread F) fragments schema
        opts = .ok []) ∧
    (∀ (_hextra : opts.getExtraFieldPaths = none) (fuel : Nat) (parentName fieldName : String)
        (a : Option String) (cond₁ : String) (csels₁ : List SelectionNode) (F₂ : String)
        (fragments : FragmentMap) (parentTy : GraphQLObjectType) (fld : GraphQLField)
        (unionTy fragTy₁ fragTy₂ : GraphQLNamedType) (frag₂ : FragmentDefinitionNode),
      (fieldName == "__typename") = false →
      resolveObjectType parentName schema = .ok parentTy →
      findField parentTy fieldName = some fld →
      resolveType fld.typeName schema = .ok unionTy → unionTy.isAbstract = true →
      resolveType cond₁ schema = .ok fragTy₁ → (cond₁ == fld.typeName) = false →
      List.lookup F₂ fragments = some frag₂ →
      resolveType frag₂.typeCondition schema = .ok fragTy₂ →
      (frag₂.typeCondition == fld.typeName) = false →
      computeFieldMaskPaths (fuel + 1 + 1) parentName
        [some [.field fieldName a
          (some [.inlineFragment (some cond₁) csels₁, .fragmentSpread F₂])]]
        fragments schema opts = .ok []) := by
  refine ⟨?_, ?_, ?_⟩
  · intro rec typename currentField cond csels fragments curTy fragTy hcur habs hfragty hne
    simp [extractPathsSelection, handleFragment, hcur, habs, hfragty, hne, hhook]
  · intro rec typename currentField F fragments frag curTy fragTy hF hcur habs hfragty hne
    simp [extractPathsSelection, handleFragment, hF, hcur, habs, hfragty, hne, hhook]
  · intro hextra fuel parentName fieldName a cond₁ csels₁ F₂ fragments parentTy fld unionTy
      fragTy₁ fragTy₂ frag₂ hn hobj hf hu habs hf1 hne1 hF2 hf2 hne2
    have hfrag1 : extractPathsSelection (extractPaths fuel) fld.typeName (some fld)
        (.inlineFragment (some cond₁) csels₁) fragments schema opts = .ok [] := by
      simp [extractPathsSelection, handleFragment, hu, habs, hf1, hne1, hhook]
    have hfrag2 : extractPathsSelection (extractPaths fuel) fld.typeName (some fld)
        (.fragmentSpread F₂) fragments schema opts = .ok [] := by
      simp [extractPathsSelection, handleFragment, hF2, hu, habs, hf2, hne2, hhook]
    have hchild : extractPaths (fuel + 1) fld.typeName (some fld)
        (some [.inlineFragment (some cond₁) csels₁, .fragmentSpread F₂]) fragments schema
        opts = .ok [] := by
      rw [extractPaths_succ]
      simp [extractPathsSelections, hfrag1, hfrag2]
    have hcfield : extractPathsSelection (extractPaths (fuel + 1)) parentName none
        (.field fieldName a
          (some [.inlineFragment (some cond₁) csels₁, .fragmentSpread F₂]))
        fragments schema opts = .ok [] := by
      cases hgf : opts.getFieldName with
      | none => simp [extractPathsSelection, hn, hobj, hf, hextra, hgf, hchild]
      | some hook =>
        cases hname : hook
            { node := (.field fieldName a
                (some [.inlineFragment (some cond₁) csels₁, .fragmentSpread F₂])),
              field := fld, objectType := parentTy, schema := schema } with
        | none => simp [extractPathsSelection, hn, hobj, hf, hextra, hgf, hname]
        | some names =>
          simp [extractPathsSelection, hn, hobj, hf, hextra, hgf, hname, hchild]
    have hroot : extractPaths (fuel + 1 + 1) parentName none
        (some [.field fieldName a
          (some [.inlineFragment (some cond₁) csels₁, .fragmentSpread F₂])])
        fragments schema opts = .ok [] := by
      rw [extractPaths_succ]
      simp [extractPathsSelections, hcfield]
    simp [computeFieldMaskPaths, computeFieldMaskPathsGo, hroot]

/-- Witness for C2 at the repository's nested-union scenario: a
`Parent.union` field of abstract type `UnionType` selected through an
inline fragment on `Object1` and a spread of a fragment on `Object2`
yields the empty path list when no abstract-type hook is configured. -/
theorem C2_witness :
    computeFieldMaskPaths 3 "Parent"
        [some [.field "union" none
          (some [.inlineFragment (some "Object1") [.field "targetField" none none],
            .fragmentSpread "Object2Frag"])]]
        testFragments testSchema specNoHookOpts = .ok [] :=
  (C2_abstract_default_ignore testSchema specNoHookOpts (by rfl)).2.2 (by rfl) 1 "Parent"
    "union" none "Object1" [.field "targetField" none none] "Object2Frag" testFragments
    parentType ⟨"union", "UnionType"⟩ (.abstract "UnionType") (.object object1Type)
    (.object object2Type) object2Frag (by rfl) (by rfl) (by rfl) (by rfl) (by rfl) (by rfl)
    (by rfl) (by rfl) (by rfl) (by rfl)

/-- C3: the field-naming hook may return several names for one field
selection, and the emitted paths are the cross product of the returned
names with the field's child paths, name-major: names `[a, b]` with child
paths `[x, y]` emit exactly `a.x, a.y, b.x, b.y`. -/
theorem C3_multi_name_fanout (rec : SpecWalker) (typename n : String) (a : Option String)
    (currentField : Option GraphQLField) (csels : List SelectionNode)
    (fragments : FragmentMap) (schema : GraphQLSchema) (opts : ExtractPathsOptions)
    (objectType : GraphQLObjectType) (fld : GraphQLField) (hook : GetFieldNamesFunc)
    (names childPaths : List String)
    (hn : (n == "__typename") = false)
    (hobj : resolveObjectType typename schema = .ok objectType)
    (hf : findField objectType n = some fld)
    (hextra : opts.getExtraFieldPaths = none)
    (hhook : opts.getFieldName = some hook)
    (hnames : hook ⟨.field n a (some csels), fld, objectType, schema⟩ = some names)
    (hchild : rec fld.typeName (some fld) (some csels) fragments schema opts = .ok childPaths) :
    extractPathsSelection rec typename currentField (.field n a (some csels)) fragments
        schema opts =
      .ok (names.flatMap (fun nm => childPaths.map (fun c => nm ++ "." ++ c))) := by
  simp [extractPathsSelection, hn, hobj, hf, hextra, hhook, hnames, hchild]

/-- Witness for C3: a hook returning `["a", "b"]` for `object1`, whose
sub-selection yields child paths `targetField` and `otherField`, emits
exactly the four cross-product paths. -/
theorem C3_witness :
    extractPathsSelection (extractPaths 2) "Parent" none
        (.field "object1" none
          (some [.field "targetField" none none, .field "otherField" none none]))
        [] testSchema fanoutOpts =
      .ok ["a.targetField", "a.otherField", "b.targetField", "b.otherField"] := by
  have h := C3_multi_name_fanout (extractPaths 2) "Parent" "object1" none none
    [.field "targetField" none none, .field "otherField" none none] [] testSchema fanoutOpts
    parentType ⟨"object1", "Object1"⟩ fanoutHook ["a", "b"] ["targetField", "otherField"]
    (by rfl) (by rfl) (by rfl) (by rfl) (by rfl) (by rfl) (by rfl)
  exact h.trans (by rfl)

/-- C4: with an extra-fields hook configured, every non-`__typename` field
selection appends the hook's strings verbatim to its contribution, before
and in addition to whatever the field's own naming and sub-selection
produce — also when the naming hook suppresses the field, and without any
recursion into the extra strings. -/
theorem C4_extra_fields_additive (rec : SpecWalker) (typename n : String)
    (currentField : Option GraphQLField) (fragments : FragmentMap) (schema : GraphQLSchema)
    (opts : ExtractPathsOptions) (objectType : GraphQLObjectType) (fld : GraphQLField)
    (ehook : GetExtraFieldPathsFunc)
    (hn : (n == "__typename") = false)
    (hobj : resolveObjectType typename schema = .ok objectType)
    (hf : findField objectType n = some fld)
    (hhook : opts.getExtraFieldPaths = some ehook) :
    (∀ (a : Option String) (csels : List SelectionNode) (hook : GetFieldNamesFunc),
      opts.getFieldName = some hook →
      hook ⟨.field n a (some csels), fld, objectType, schema⟩ = none →
      extractPathsSelection rec typename currentField (.field n a (some csels)) fragments
          schema opts =
        .ok (ehook ⟨.field n a (some csels), fld, objectType, schema⟩)) ∧
    (∀ (a : Option String) (csels : List SelectionNode) (names childPaths : List String),
      (match opts.getFieldName with
        | some hook => hook ⟨.field n a (some csels), fld, objectType, schema⟩
        | none => some [fld.name]) = some names →
      rec fld.typeName (some fld) (some csels) fragments schema opts = .ok childPaths →
      extractPathsSelection rec typename currentField (.field n a (some csels)) fragments
          schema opts =
        .ok (ehook ⟨.field n a (some csels), fld, objectType, schema⟩ ++
          names.flatMap (fun nm => childPaths.map (fun c => nm ++ "." ++ c)))) ∧
    (∀ (a : Option String) (names : List String),
      (match opts.getFieldName with
        | some hook => hook ⟨.field n a none, fld, objectType, schema⟩
        | none => some [fld.name]) = some names →
      extractPathsSelection rec typename currentField (.field n a none) fragments schema
          opts =
        .ok (ehook ⟨.field n a none, fld, objectType, schema⟩ ++ names)) := by
  refine ⟨?_, ?_, ?_⟩
  · intro a csels hook hgf hnone
    simp [extractPathsSelection, hn, hobj, hf, hhook, hgf, hnone]
  · intro a csels names childPaths hnames hchild
    simp [extractPathsSelection, hn, hobj, hf, hhook, hnames, hchild]
  · intro a names hnames
    simp [extractPathsSelection, hn, hobj, hf, hhook, hnames]

/-- Witness for C4: the hook adds `dep1`/`dep2` to `object1`, which also
has a sub-selection contributing `object1.targetField`; all three paths
appear, the extras verbatim and first. -/
theorem C4_witness :
    extractPathsSelection (extractPaths 2) "Parent" none
        (.field "object1" none (some [.field "targetField" none none])) [] testSchema
        extraOpts =
      .ok ["dep1", "dep2", "object1.targetField"] := by
  have h := (C4_extra_fields_additive (extractPaths 2) "Parent" "object1" none [] testSchema
    extraOpts parentType ⟨"object1", "Object1"⟩ extraHook (by rfl) (by rfl) (by rfl)
    (by rfl)).2.1 none [.field "targetField" none none] ["object1"] ["targetField"]
    (by rfl) (by rfl)
  exact h.trans (by rfl)
